import Mathlib

/-!
Verification of the remote query execution and statistics engine of the
duckdb-streamlit-example application (src/app.py) against its design
specification.

The embedding models:
* `retry_query` — the retry decorator (src/app.py lines 41-56);
* `get_duckdb_connection` — the `st.cache_resource`-cached connection
  acquisition (lines 17-38), with the Streamlit resource cache made explicit
  as a state value;
* `run_duckdb_query` — the retried query execution (lines 58-65);
* `get_available_months` — the cached month-list fetch (lines 131-144);
* the SQL queries generated by the two pages, embedded by their relational
  semantics over an explicit list of table rows, and, where the claims are
  about query *text*, by the generated strings themselves.
-/

namespace DuckApp

/-! ## Retry policy (src/app.py lines 41-56)

The Python decorator runs `for attempt in range(max_retries)`: it calls the
wrapped zero-argument operation; on success it returns the result; on an
exception it retries (after a constant `delay`) unless the attempt was the
last one, in which case it re-raises the error.  We model the operation as a
function from the invocation index (0-based) to an `Except` outcome, and
return the wrapper's outcome together with the number of invocations
performed.  `none` is the `return None` fall-through reached only when
`max_retries = 0`.  The recursion is phrased on the number of remaining
attempts (`remaining = max_retries - attempt`), the standard structural
desugaring of the `for` loop; the test `remaining = 0` is exactly the
source's `attempt < max_retries - 1` negated. -/

def retryLoop (op : Nat → Except ε α) : Nat → Nat → Option (Except ε α) × Nat
  | 0, attempt => (none, attempt)
  | remaining + 1, attempt =>
    match op attempt with
    | Except.ok a => (some (Except.ok a), attempt + 1)
    | Except.error e =>
      if remaining = 0 then (some (Except.error e), attempt + 1)
      else retryLoop op remaining (attempt + 1)

/-- The retry decorator: `max_retries` total attempts, constant `delay`
seconds between attempts (the sleep has no effect on the outcome and is not
modelled).  Defaults in the source are `max_retries=3, delay=2`. -/
def retry_query (op : Nat → Except ε α) (max_retries : Nat) (delay : Nat) :
    Option (Except ε α) × Nat :=
  let _ := delay
  retryLoop op max_retries 0

/-- Helper: a successful invocation at index `attempt` stops the loop at once,
with exactly `attempt + 1` invocations performed in total. -/
theorem retryLoop_ok (op : Nat → Except ε α) (remaining attempt : Nat) (a : α)
    (h : op attempt = Except.ok a) :
    retryLoop op (remaining + 1) attempt = (some (Except.ok a), attempt + 1) := by
  simp [retryLoop, h]

/-- C1.  For a zero-argument operation wrapped with `max_retries = 3` and
constant delay: (i) if the operation fails twice and then succeeds, the
wrapper returns the success result and the operation is invoked exactly 3
times; (ii) if the operation fails on all 3 attempts, the wrapper raises the
error produced by the operation, unchanged, and the operation is invoked
exactly 3 times and no more; (iii) no retry occurs after a successful
invocation: if invocation `k < 3` succeeds, the loop stops with exactly
`k + 1` invocations. -/
theorem retry_three_attempts (ε α : Type) (op : Nat → Except ε α)
    (e0 e1 e2 : ε) (a : α) (d : Nat) :
    (op 0 = Except.error e0 → op 1 = Except.error e1 → op 2 = Except.ok a →
      retry_query op 3 d = (some (Except.ok a), 3)) ∧
    (op 0 = Except.error e0 → op 1 = Except.error e1 → op 2 = Except.error e2 →
      retry_query op 3 d = (some (Except.error e2), 3)) ∧
    (∀ k, k < 3 → op k = Except.ok a →
      retryLoop op (3 - k) k = (some (Except.ok a), k + 1)) := by
  refine ⟨?_, ?_, ?_⟩
  · intro h0 h1 h2
    simp [retry_query, retryLoop, h0, h1, h2]
  · intro h0 h1 h2
    simp [retry_query, retryLoop, h0, h1, h2]
  · intro k hk hop
    interval_cases k <;> exact retryLoop_ok op _ _ a hop

/-- Witness for C1 at a concrete operation that fails twice then succeeds,
and a concrete operation that fails three times. -/
theorem retry_three_attempts_witness :
    retry_query (fun i => if i < 2 then Except.error i else Except.ok 42) 3 2 =
      (some (Except.ok 42), 3) ∧
    retry_query (fun i : Nat => (Except.error i : Except Nat Nat)) 3 2 =
      (some (Except.error 2), 3) ∧
    retryLoop (fun i => if i < 1 then Except.error i else Except.ok 42) 2 1 =
      (some (Except.ok 42), 2) := by
  refine ⟨?_, ?_, ?_⟩
  · exact (retry_three_attempts Nat Nat _ 0 1 0 42 2).1 rfl rfl rfl
  · exact (retry_three_attempts Nat Nat _ 0 1 2 42 2).2.1 rfl rfl rfl
  · exact (retry_three_attempts Nat Nat _ 0 0 0 42 2).2.2 1 (by decide) rfl

/-! ## Connection acquisition (src/app.py lines 17-38)

`get_duckdb_connection` is decorated with `@st.cache_resource`: Streamlit
keeps the returned resource in a process-wide cache, so a later call returns
the cached value without re-running the body; when the body does not return
normally (it raises — including the `StopException` raised by `st.stop()`),
*nothing is cached* and a later call re-runs the body.  We make that cache
explicit as a state value, together with a count of `ATTACH` commands
executed (the interesting effect of the body; the `INSTALL`/`LOAD`/`USE`
statements against the local in-memory connection are not modelled) and a
count of query executions, used to index per-execution outcomes.

A connection handle is identified by the index of the `ATTACH` that created
it.  The environment is an oracle `attachOk : Nat → Bool` giving the outcome
of the n-th `ATTACH`.  On failure the source catches the exception, shows two
`st.error` messages and calls `st.stop()`, which raises Streamlit's
`StopException` (a subclass of `Exception`); the `return None` after
`st.stop()` is unreachable.  We model that outcome as `ConnResult.stopped`. -/

structure ConnState where
  cache : Option Nat
  attaches : Nat
  execs : Nat
  deriving Repr, DecidableEq

inductive ConnResult where
  | handle (id : Nat)
  | stopped
  deriving Repr, DecidableEq

def get_duckdb_connection (attachOk : Nat → Bool) (s : ConnState) :
    ConnResult × ConnState :=
  match s.cache with
  | some h => (ConnResult.handle h, s)
  | none =>
    if attachOk s.attaches then
      (ConnResult.handle s.attaches,
        { cache := some s.attaches, attaches := s.attaches + 1, execs := s.execs })
    else
      (ConnResult.stopped,
        { cache := none, attaches := s.attaches + 1, execs := s.execs })

/-- Errors that can escape the body of `run_duckdb_query`: the
`StopException` raised when connection acquisition failed, or a query
execution error (carrying an error code). -/
inductive RunErr where
  | stop
  | exec (code : Nat)
  deriving Repr, DecidableEq

/-- Stateful version of the retry loop, for bodies that read and update the
`ConnState` (the Python decorator is oblivious to state; this is the same
loop as `retryLoop` with the state threaded through). -/
def retryLoopSt (body : ConnState → (Except RunErr α) × ConnState) :
    Nat → ConnState → Option (Except RunErr α) × ConnState
  | 0, s => (none, s)
  | remaining + 1, s =>
    match body s with
    | (Except.ok a, s') => (some (Except.ok a), s')
    | (Except.error e, s') =>
      if remaining = 0 then (some (Except.error e), s')
      else retryLoopSt body remaining s'

/-- One attempt of the body of `run_duckdb_query` (src/app.py lines 58-65):
acquire the connection, then execute the query and fetch the dataframe.  If
acquisition stopped the script, the raised `StopException` escapes the body
(and is caught by the retry decorator, a subclass of `Exception`).  The
result of the n-th `con.execute(query).fetchdf()` is given by the oracle
`execOut`.  The source's `return pd.DataFrame()` for a `None` connection is
unreachable and not modelled. -/
def queryAttempt (attachOk : Nat → Bool) (execOut : Nat → Except Nat α)
    (s : ConnState) : (Except RunErr α) × ConnState :=
  match get_duckdb_connection attachOk s with
  | (ConnResult.stopped, s') => (Except.error RunErr.stop, s')
  | (ConnResult.handle _, s') =>
    match execOut s'.execs with
    | Except.ok df =>
      (Except.ok df, { cache := s'.cache, attaches := s'.attaches, execs := s'.execs + 1 })
    | Except.error c =>
      (Except.error (RunErr.exec c),
        { cache := s'.cache, attaches := s'.attaches, execs := s'.execs + 1 })

/-- `run_duckdb_query`, i.e. the body above wrapped by `@retry_query()`
with the default `max_retries = 3`. -/
def run_duckdb_query (attachOk : Nat → Bool) (execOut : Nat → Except Nat α)
    (s : ConnState) : Option (Except RunErr α) × ConnState :=
  retryLoopSt (queryAttempt attachOk execOut) 3 s

/-- The fresh process state: nothing cached, nothing attached or executed. -/
def initState : ConnState := { cache := none, attaches := 0, execs := 0 }

/-! ## C7: idempotent acquisition -/

/-- `n` successive calls of `get_duckdb_connection`, collecting the results. -/
def acquireCalls (attachOk : Nat → Bool) : Nat → ConnState → List ConnResult × ConnState
  | 0, s => ([], s)
  | n + 1, s =>
    let p := get_duckdb_connection attachOk s
    let q := acquireCalls attachOk n p.2
    (p.1 :: q.1, q.2)

/-- Helper: once a handle is cached, every further acquisition returns it and
leaves the state unchanged. -/
theorem acquireCalls_cached (attachOk : Nat → Bool) (h : Nat) (n : Nat)
    (s : ConnState) (hs : s.cache = some h) :
    acquireCalls attachOk n s = (List.replicate n (ConnResult.handle h), s) := by
  induction n with
  | zero => simp [acquireCalls]
  | succ n ih =>
    simp [acquireCalls, get_duckdb_connection, hs, ih, List.replicate_succ]

/-- C7.  Connection acquisition is idempotent within a process: starting from
the fresh state, if the first attach succeeds, then for all `n ≥ 1`, `n`
acquisition calls perform exactly one `ATTACH`, and every call returns the
same already-established handle (handle 0, created by the single attach). -/
theorem acquire_idempotent (attachOk : Nat → Bool) (n : Nat)
    (h0 : attachOk 0 = true) (hn : 1 ≤ n) :
    (acquireCalls attachOk n initState).2.attaches = 1 ∧
    (acquireCalls attachOk n initState).1 =
      List.replicate n (ConnResult.handle 0) := by
  obtain ⟨m, rfl⟩ : ∃ m, n = m + 1 := ⟨n - 1, by omega⟩
  have hfirst : get_duckdb_connection attachOk initState =
      (ConnResult.handle 0, { cache := some 0, attaches := 1, execs := 0 }) := by
    simp [get_duckdb_connection, initState, h0]
  have hrest := acquireCalls_cached attachOk 0 m
      { cache := some 0, attaches := 1, execs := 0 } rfl
  constructor
  · simp [acquireCalls, hfirst, hrest]
  · simp [acquireCalls, hfirst, hrest, List.replicate_succ]

/-- Witness for C7 with a concrete oracle and `n = 3`. -/
theorem acquire_idempotent_witness :
    (acquireCalls (fun _ => true) 3 initState).2.attaches = 1 ∧
    (acquireCalls (fun _ => true) 3 initState).1 =
      List.replicate 3 (ConnResult.handle 0) :=
  acquire_idempotent (fun _ => true) 3 rfl (by decide)

/-! ## C4: behaviour after a failed acquisition

The spec claims a failed first acquisition is memoized ("marked permanently
failed"), that further acquisition calls fail fast without re-attaching, and
that retrying applies only to query execution, never to the attach step.

On the code this is false on all three counts: `st.cache_resource` caches
nothing when the body does not return (and the body ends in `st.stop()`,
which raises), so a later acquisition call re-runs the body and re-attempts
the `ATTACH`; moreover `run_duckdb_query` calls `get_duckdb_connection()`
*inside* the `@retry_query()`-wrapped body, and Streamlit's `StopException`
is a subclass of `Exception` and is caught by the decorator's
`except Exception`, so the retry loop re-attempts the attach as well. -/

/-- Counterexample to C4, in the fresh process state with an always-failing
attach: (i) a second acquisition call after the failed first one does not
fail fast — it executes another `ATTACH` (the claim predicts the attach
count stays at 1); (ii) a single `run_duckdb_query` call drives 3 `ATTACH`
attempts through the retry loop (the claim predicts retries never touch the
attach step, i.e. at most 1 attach). -/
theorem connection_failure_memoized_counterexample :
    ¬ ((get_duckdb_connection (fun _ => false)
        (get_duckdb_connection (fun _ => false) initState).2).2.attaches = 1) ∧
    ¬ ((run_duckdb_query (fun _ => false)
        (fun _ => (Except.error 0 : Except Nat Nat)) initState).2.attaches ≤ 1) := by
  decide

/-- C4, amended.  If the attach fails, the current script run is stopped and
no handle is cached; the failure is not memoized, so a subsequent
acquisition call re-attempts the attach (the attach count increases); and
because `run_duckdb_query` acquires the connection inside the retried body,
the retry policy re-attempts the attach too: with an attach that keeps
failing, one `run_duckdb_query` call performs exactly 3 attach attempts and
raises the `StopException` of the last one. -/
theorem connection_failure_semantics (attachOk : Nat → Bool)
    (execOut : Nat → Except Nat Nat) (hfail : ∀ i, attachOk i = false) :
    get_duckdb_connection attachOk initState =
      (ConnResult.stopped, { cache := none, attaches := 1, execs := 0 }) ∧
    get_duckdb_connection attachOk { cache := none, attaches := 1, execs := 0 } =
      (ConnResult.stopped, { cache := none, attaches := 2, execs := 0 }) ∧
    run_duckdb_query attachOk execOut initState =
      (some (Except.error RunErr.stop),
        { cache := none, attaches := 3, execs := 0 }) := by
  refine ⟨?_, ?_, ?_⟩
  · simp [get_duckdb_connection, initState, hfail]
  · simp [get_duckdb_connection, hfail]
  · simp [run_duckdb_query, retryLoopSt, queryAttempt, get_duckdb_connection,
      initState, hfail]

/-- Witness for the amended C4 at the concrete always-failing oracle. -/
theorem connection_failure_semantics_witness :
    get_duckdb_connection (fun _ => false) initState =
      (ConnResult.stopped, { cache := none, attaches := 1, execs := 0 }) ∧
    get_duckdb_connection (fun _ => false) { cache := none, attaches := 1, execs := 0 } =
      (ConnResult.stopped, { cache := none, attaches := 2, execs := 0 }) ∧
    run_duckdb_query (fun _ => false) (fun _ => (Except.error 0 : Except Nat Nat))
      initState =
      (some (Except.error RunErr.stop),
        { cache := none, attaches := 3, execs := 0 }) :=
  connection_failure_semantics (fun _ => false) (fun _ => Except.error 0)
    (fun _ => rfl)

/-! ## C5: error propagation (src/app.py lines 58-65 and 131-144)

`run_duckdb_query` does propagate the final error unchanged.  But
`get_available_months` wraps its call in `try: ... except Exception: return
[]` — on any failure it returns the *empty list*, exactly the invented
default the spec forbids.  (Its own decorators change nothing here: the body
never raises, so its `@retry_query()` returns after the first attempt, and
`@st.cache_data` caches the value — including the `[]` failure value.) -/

/-- One attempt of the body of `get_available_months` (src/app.py lines
131-144): run the months query and turn the `month_key` column into a list;
the `except Exception` catch-all converts any failure into a normal return
of `[]`, so the body never raises.  (The `none` branch of the inner result —
the decorator's `return None` fall-through — is unreachable because
`max_retries = 3`; it is folded into the catch-all here.) -/
def monthsBody (attachOk : Nat → Bool) (execOut : Nat → Except Nat (List String))
    (s : ConnState) : (Except RunErr (List String)) × ConnState :=
  match run_duckdb_query attachOk execOut s with
  | (some (Except.ok df), s') => (Except.ok df, s')
  | (_, s') => (Except.ok [], s')

/-- `get_available_months`: the body above wrapped by `@retry_query()`. -/
def get_available_months (attachOk : Nat → Bool)
    (execOut : Nat → Except Nat (List String)) (s : ConnState) :
    Option (Except RunErr (List String)) × ConnState :=
  retryLoopSt (monthsBody attachOk execOut) 3 s

/-- Counterexample to C5: with a connection that attaches fine but whose
every query execution fails (error code 7), `run_duckdb_query` surfaces the
error — yet `get_available_months` returns a *successful* empty list in
place of that error, indistinguishable from a database with no months. -/
theorem error_swallowed_counterexample :
    (run_duckdb_query (fun _ => true)
        (fun _ => (Except.error 7 : Except Nat (List String))) initState).1 =
      some (Except.error (RunErr.exec 7)) ∧
    (get_available_months (fun _ => true) (fun _ => Except.error 7) initState).1 =
      some (Except.ok ([] : List String)) :=
  ⟨rfl, rfl⟩

/-- C5, amended.  After retries are exhausted, `run_duckdb_query` propagates
the error of the final execution attempt unchanged (no invented default);
`get_available_months`, however, catches the error and returns the empty
list instead of propagating it. -/
theorem query_error_propagation (attachOk : Nat → Bool)
    (execOut : Nat → Except Nat (List String)) (c : Nat → Nat)
    (h0 : attachOk 0 = true) (hexec : ∀ i, execOut i = Except.error (c i)) :
    run_duckdb_query attachOk execOut initState =
      (some (Except.error (RunErr.exec (c 2))),
        { cache := some 0, attaches := 1, execs := 3 }) ∧
    get_available_months attachOk execOut initState =
      (some (Except.ok []),
        { cache := some 0, attaches := 1, execs := 3 }) := by
  have hrun : run_duckdb_query attachOk execOut initState =
      (some (Except.error (RunErr.exec (c 2))),
        { cache := some 0, attaches := 1, execs := 3 }) := by
    simp [run_duckdb_query, retryLoopSt, queryAttempt, get_duckdb_connection,
      initState, h0, hexec]
  exact ⟨hrun, by simp [get_available_months, retryLoopSt, monthsBody, hrun]⟩

/-- Witness for the amended C5 at concrete oracles. -/
theorem query_error_propagation_witness :
    run_duckdb_query (fun _ => true)
        (fun i => (Except.error (i + 5) : Except Nat (List String))) initState =
      (some (Except.error (RunErr.exec 7)),
        { cache := some 0, attaches := 1, execs := 3 }) ∧
    get_available_months (fun _ => true) (fun i => Except.error (i + 5)) initState =
      (some (Except.ok []),
        { cache := some 0, attaches := 1, execs := 3 }) :=
  query_error_propagation (fun _ => true) (fun i => Except.error (i + 5))
    (fun i => i + 5) rfl (fun _ => rfl)

/-! ## C3: quote escaping in the generated IN-list (src/app.py lines 209-215)

The page escapes each article name with `name.replace("'", "''")`, wraps it
in single quotes (`f"'{name}'"`), and joins the quoted literals with
`", "`.  We model the construction on character lists (`sq` is the
single-quote character, written by code point to keep the SQL quoting
explicit), and give a reader of SQL string literals; the safety contract is
the round trip: parsing the generated IN-list recovers exactly the original
names, for every list of names — so a name containing quotes can neither
change the number of literals nor their boundaries, and each embedded
literal still denotes the original value. -/

def sq : Char := Char.ofNat 39

/-- `name.replace("'", "''")` on the underlying character list: every
single-quote character is doubled. -/
def escChars : List Char → List Char
  | [] => []
  | c :: cs => if c = sq then c :: c :: escChars cs else c :: escChars cs

/-- `name.replace("'", "''")` (src/app.py line 209). -/
def escapeQuotes (name : String) : String := String.mk (escChars name.data)

/-- `f"'{name}'"` — the quoted SQL string literal for one article name. -/
def quoteLit (name : String) : List Char := sq :: ((escapeQuotes name).data ++ [sq])

/-- `", ".join(...)` (src/app.py line 215). -/
def joinCommaSep : List (List Char) → List Char
  | [] => []
  | [x] => x
  | x :: y :: xs => x ++ ',' :: ' ' :: joinCommaSep (y :: xs)

/-- The `articles_list_sql` fragment embedded into the daily-views query. -/
def articles_list_sql (names : List String) : List Char :=
  joinCommaSep (names.map quoteLit)

/-- A reader of the body of a SQL single-quoted string literal: a doubled
quote denotes one quote character; a single quote closes the literal.
Returns the denoted value and the unconsumed remainder. -/
def parseLitAux : List Char → List Char → Option (List Char × List Char)
  | _, [] => none
  | acc, c :: rest =>
    if c = sq then
      match rest with
      | [] => some (acc, [])
      | c2 :: rest2 =>
        if c2 = sq then parseLitAux (acc ++ [sq]) rest2
        else some (acc, c2 :: rest2)
    else parseLitAux (acc ++ [c]) rest

/-- A reader of a full SQL single-quoted string literal. -/
def parseLit : List Char → Option (List Char × List Char)
  | [] => none
  | c :: rest => if c = sq then parseLitAux [] rest else none

/-- A reader of a comma-separated sequence of quoted literals (the shape of
the generated `IN (...)` member list), consuming the whole input.  `fuel`
bounds the number of literals. -/
def parseLits : Nat → List Char → Option (List (List Char))
  | 0, _ => none
  | fuel + 1, l =>
    match parseLit l with
    | none => none
    | some (v, rest) =>
      match rest with
      | [] => some [v]
      | c1 :: c2 :: rest2 =>
        if c1 = ',' then
          if c2 = ' ' then
            match parseLits fuel rest2 with
            | some vs => some (v :: vs)
            | none => none
          else none
        else none
      | _ => none

/-- Helper: reading an escaped value followed by a closing quote recovers the
value, provided the remainder does not itself begin with a quote (in the
generated query the remainder is empty or begins with a comma). -/
theorem parseLitAux_round (v : List Char) (rest : List Char)
    (h : rest.head? ≠ some sq) (acc : List Char) :
    parseLitAux acc (escChars v ++ sq :: rest) = some (acc ++ v, rest) := by
  induction v generalizing acc with
  | nil =>
    cases rest with
    | nil => simp [escChars, parseLitAux]
    | cons r rs =>
      have hr : r ≠ sq := by simpa using h
      simp [escChars, parseLitAux, hr]
  | cons c cs ih =>
    by_cases hc : c = sq
    · subst hc
      have hstep : parseLitAux acc (escChars (sq :: cs) ++ sq :: rest) =
          parseLitAux (acc ++ [sq]) (escChars cs ++ sq :: rest) := by
        simp [escChars, parseLitAux]
      rw [hstep, ih (acc ++ [sq])]
      simp
    · have hstep : parseLitAux acc (escChars (c :: cs) ++ sq :: rest) =
          parseLitAux (acc ++ [c]) (escChars cs ++ sq :: rest) := by
        rw [show escChars (c :: cs) = c :: escChars cs from by
          simp [escChars, hc]]
        rw [parseLitAux.eq_def]
        simp [hc]
      rw [hstep, ih (acc ++ [c])]
      simp

/-- Helper: reading one quoted literal off the front of the generated
fragment recovers the original name. -/
theorem parseLit_append (name : String) (rest : List Char)
    (h : rest.head? ≠ some sq) :
    parseLit (quoteLit name ++ rest) = some (name.data, rest) := by
  have hr := parseLitAux_round name.data rest h []
  simp [quoteLit, parseLit, escapeQuotes, List.cons_append, List.append_assoc,
    List.singleton_append, hr]

/-- Helper: one step of the list reader when the literal is the last one. -/
theorem parseLits_last_step (fuel : Nat) (v : List Char) (l : List Char)
    (hp : parseLit l = some (v, [])) :
    parseLits (fuel + 1) l = some [v] := by
  simp [parseLits, hp]

/-- Helper: one step of the list reader across a `", "` separator. -/
theorem parseLits_cons_step (fuel : Nat) (v rest2 l : List Char)
    (hp : parseLit l = some (v, ',' :: ' ' :: rest2)) :
    parseLits (fuel + 1) l =
      match parseLits fuel rest2 with
      | some vs => some (v :: vs)
      | none => none := by
  simp [parseLits, hp]

/-- C3.  Injection safety of the quote-doubling escape: for every non-empty
list of article names — quotes included — reading the generated IN-list
back as comma-separated SQL string literals succeeds, consumes the entire
fragment, finds exactly one literal per name, and each literal denotes the
original name.  So a value containing single quotes cannot alter the
structure of the generated query, and the embedded literal still matches the
intended value. -/
theorem escape_injection_safe (names : List String) (h : names ≠ []) :
    parseLits names.length (articles_list_sql names) =
      some (names.map String.data) := by
  induction names with
  | nil => exact absurd rfl h
  | cons n ns ih =>
    cases ns with
    | nil =>
      have hp := parseLit_append n [] (by simp)
      rw [List.append_nil] at hp
      have hA : articles_list_sql [n] = quoteLit n := by
        simp [articles_list_sql, joinCommaSep]
      rw [hA]
      simpa using parseLits_last_step 0 n.data (quoteLit n) hp
    | cons m ms =>
      have hcomma : (',' : Char) ≠ sq := by decide
      have hp := parseLit_append n (',' :: ' ' :: articles_list_sql (m :: ms))
        (by simpa using hcomma)
      have hrec := ih (by simp)
      have hJ : articles_list_sql (n :: m :: ms) =
          quoteLit n ++ ',' :: ' ' :: articles_list_sql (m :: ms) := by
        simp [articles_list_sql, List.map_cons, joinCommaSep]
      rw [List.length_cons, hJ,
        parseLits_cons_step (m :: ms).length n.data
          (articles_list_sql (m :: ms)) _ hp, hrec]
      simp

/-- Witness for C3 at concrete names, one of which contains a single quote. -/
theorem escape_injection_safe_witness :
    parseLits 2 (articles_list_sql
        [ String.mk [ 'O', sq, 'B' ], String.mk [ 'x' ] ]) =
      some [ [ 'O', sq, 'B' ], [ 'x' ] ] :=
  escape_injection_safe [ String.mk [ 'O', sq, 'B' ], String.mk [ 'x' ] ]
    (by decide)

/-! ## Relational semantics of the generated queries

The remote table `data_table` has columns `date` (a DuckDB DATE, held here
as a day index: days since 1970-01-01), `article` (text) and `pageviews`
(a count).  The generated queries are embedded by their relational
semantics over an explicit list of rows: `GROUP BY` is `dedup` of the key
column followed by a per-key filtered sum, `ORDER BY` is a stable sort,
`LIMIT n` is `take n`. -/

structure Row where
  date : Nat
  article : String
  pageviews : Nat
  deriving Repr, DecidableEq

/-- `SUM(pageviews)` over a set of rows. -/
def sumViews (rows : List Row) : Nat := (rows.map Row.pageviews).sum

/-- `SELECT key, SUM(pageviews) ... GROUP BY key`: one output row per
distinct key, carrying the sum of `pageviews` over the input rows with that
key. -/
def groupSumBy {κ : Type} [DecidableEq κ] (key : Row → κ) (rows : List Row) :
    List (κ × Nat) :=
  (rows.map key).dedup.map fun k =>
    (k, sumViews (rows.filter fun r => decide (key r = k)))

/-- Civil date `(year, month, day)` of the day index `z0` (days since
1970-01-01), by the standard civil-from-days conversion (Gregorian,
era-based), shifted by 719468 days so the whole computation stays in `Nat`. -/
def civilFromDays (z0 : Nat) : Nat × Nat × Nat :=
  let z := z0 + 719468
  let era := z / 146097
  let doe := z % 146097
  let yoe := (doe - doe / 1460 + doe / 36524 - doe / 146096) / 365
  let y := yoe + era * 400
  let doy := doe - (365 * yoe + yoe / 4 - yoe / 100)
  let mp := (5 * doy + 2) / 153
  let d := doy - (153 * mp + 2) / 5 + 1
  let m := if mp < 10 then mp + 3 else mp - 9
  (if m ≤ 2 then y + 1 else y, m, d)

/-- Day index (days since 1970-01-01) of the civil date `y-m-d`, the inverse
conversion. -/
def daysFromCivil (y m d : Nat) : Nat :=
  let y1 := if m ≤ 2 then y - 1 else y
  let era := y1 / 400
  let yoe := y1 % 400
  let mp := if 2 < m then m - 3 else m + 9
  let doy := (153 * mp + 2) / 5 + d - 1
  let doe := yoe * 365 + yoe / 4 - yoe / 100 + doy
  era * 146097 + doe - 719468

/-- The three aggregation granularities offered by the radio selector
(src/app.py lines 73-87). -/
inductive Granularity where
  | day
  | week
  | month
  deriving Repr, DecidableEq

/-- Semantics of `DATE_TRUNC('day'|'week'|'month', date)` on a day index:
truncation to the start of the containing bucket.  DuckDB weeks start on
Monday; day 0 = 1970-01-01 was a Thursday, so day `d` is a Monday iff
`(d + 3) % 7 = 0`. -/
def date_trunc (g : Granularity) (d : Nat) : Nat :=
  match g with
  | Granularity.day => d
  | Granularity.week => d - (d + 3) % 7
  | Granularity.month =>
    daysFromCivil (civilFromDays d).1 (civilFromDays d).2.1 1

/-- Semantics of the time-series query (src/app.py lines 91-98):
`SELECT DATE_TRUNC(g, date) AS period, SUM(pageviews) FROM data_table
GROUP BY 1 ORDER BY 1`. -/
def timeseries_query (g : Granularity) (rows : List Row) : List (Nat × Nat) :=
  List.insertionSort (fun a b : Nat × Nat => a.1 ≤ b.1)
    (groupSumBy (fun r => date_trunc g r.date) rows)

/-- C6.  For each granularity: every output row of the time-series query is
a bucket start occurring in the data paired with the sum of `pageviews`
over the rows of that bucket; the output is ordered by bucket key
ascending; and rows whose dates are exactly the 7 days of one calendar week
(starting at a Monday `d`) produce 7 buckets at daily granularity and a
single bucket at weekly granularity, keyed by the week's truncation start
`d` and summing all the rows. -/
theorem timeseries_aggregation (g : Granularity) (rows : List Row) (d : Nat) :
    (∀ p ∈ timeseries_query g rows,
      p.2 = sumViews (rows.filter fun r => decide (date_trunc g r.date = p.1)) ∧
      p.1 ∈ rows.map (fun r => date_trunc g r.date)) ∧
    List.Pairwise (fun a b : Nat × Nat => a.1 ≤ b.1) (timeseries_query g rows) ∧
    (rows.map Row.date = [d, d + 1, d + 2, d + 3, d + 4, d + 5, d + 6] →
      (d + 3) % 7 = 0 →
      (timeseries_query Granularity.day rows).length = 7 ∧
      timeseries_query Granularity.week rows = [(d, sumViews rows)]) := by
  refine ⟨?_, ?_, ?_⟩
  · intro p hp
    have hp' : p ∈ groupSumBy (fun r => date_trunc g r.date) rows :=
      (List.perm_insertionSort _ _).mem_iff.mp hp
    obtain ⟨k, hk, hkp⟩ := List.mem_map.mp hp'
    refine ⟨by rw [← hkp], ?_⟩
    rw [← hkp]
    exact List.mem_dedup.mp hk
  · haveI : IsTotal (Nat × Nat) (fun a b => a.1 ≤ b.1) :=
      ⟨fun a b => Nat.le_total a.1 b.1⟩
    haveI : IsTrans (Nat × Nat) (fun a b => a.1 ≤ b.1) :=
      ⟨fun _ _ _ hab hbc => le_trans hab hbc⟩
    exact List.sorted_insertionSort _ _
  · intro hmap hmon
    have hdates : ∀ r ∈ rows, d ≤ r.date ∧ r.date < d + 7 := by
      intro r hr
      have : r.date ∈ rows.map Row.date := List.mem_map.mpr ⟨r, hr, rfl⟩
      rw [hmap] at this
      simp only [List.mem_cons, List.not_mem_nil, or_false] at this
      omega
    constructor
    · -- daily granularity: the 7 distinct dates give 7 buckets
      have hkeys : rows.map (fun r => date_trunc Granularity.day r.date) =
          [d, d + 1, d + 2, d + 3, d + 4, d + 5, d + 6] := by
        simpa [date_trunc] using hmap
      have hnodup : ([d, d + 1, d + 2, d + 3, d + 4, d + 5, d + 6] :
          List Nat).Nodup := by
        simp only [List.nodup_cons, List.mem_cons, List.not_mem_nil,
          List.nodup_nil, and_true, or_false, not_or, not_false_iff]
        omega
      have hlen : (groupSumBy (fun r => date_trunc Granularity.day r.date)
          rows).length = 7 := by
        simp [groupSumBy, hkeys, hnodup.dedup]
      calc (timeseries_query Granularity.day rows).length
          = (groupSumBy (fun r => date_trunc Granularity.day r.date)
              rows).length := (List.perm_insertionSort _ _).length_eq
        _ = 7 := hlen
    · -- weekly granularity: one bucket keyed by the Monday d
      have htrunc : ∀ x, d ≤ x → x < d + 7 → x - (x + 3) % 7 = d := by
        intro x h1 h2
        omega
      have hkeys : rows.map (fun r => date_trunc Granularity.week r.date) =
          [d, d, d, d, d, d, d] := by
        have h1 : rows.map (fun r => date_trunc Granularity.week r.date) =
            (rows.map Row.date).map (fun x => x - (x + 3) % 7) := by
          rw [List.map_map]
          simp [date_trunc, Function.comp]
        rw [h1, hmap]
        simp only [List.map_cons, List.map_nil, List.cons.injEq, and_true]
        omega
      have hfilter : rows.filter
          (fun r => decide (date_trunc Granularity.week r.date = d)) = rows := by
        apply List.filter_eq_self.mpr
        intro r hr
        obtain ⟨h1, h2⟩ := hdates r hr
        simp [date_trunc, htrunc r.date h1 h2]
      have hgroup : groupSumBy (fun r => date_trunc Granularity.week r.date)
          rows = [(d, sumViews rows)] := by
        simp [groupSumBy, hkeys, hfilter]
      simp [timeseries_query, hgroup, List.insertionSort]

/-- Witness for C6: a concrete week of rows starting at the Monday day
index 4 (1970-01-05). -/
theorem timeseries_aggregation_witness :
    ((fun rows => (rows.map Row.date =
        [4, 4 + 1, 4 + 2, 4 + 3, 4 + 4, 4 + 5, 4 + 6]) ∧ (4 + 3) % 7 = 0 ∧
      (timeseries_query Granularity.day rows).length = 7 ∧
      timeseries_query Granularity.week rows = [(4, sumViews rows)])
      ([⟨4, "a", 10⟩, ⟨5, "a", 20⟩, ⟨6, "b", 1⟩, ⟨7, "b", 2⟩, ⟨8, "c", 3⟩,
        ⟨9, "c", 4⟩, ⟨10, "a", 5⟩] : List Row)) ∧
    (1, 30) ∈ timeseries_query Granularity.day
      [⟨1, "a", 10⟩, ⟨1, "b", 20⟩] := by
  have hmap : (([⟨4, "a", 10⟩, ⟨5, "a", 20⟩, ⟨6, "b", 1⟩, ⟨7, "b", 2⟩,
      ⟨8, "c", 3⟩, ⟨9, "c", 4⟩, ⟨10, "a", 5⟩] : List Row).map Row.date =
      [4, 4 + 1, 4 + 2, 4 + 3, 4 + 4, 4 + 5, 4 + 6]) := by decide
  have h := (timeseries_aggregation Granularity.day
    [⟨4, "a", 10⟩, ⟨5, "a", 20⟩, ⟨6, "b", 1⟩, ⟨7, "b", 2⟩, ⟨8, "c", 3⟩,
      ⟨9, "c", 4⟩, ⟨10, "a", 5⟩] 4).2.2 hmap (by decide)
  exact ⟨⟨hmap, by decide, h.1, h.2⟩, by decide⟩

/-! ## C2: two-stage top-N request (src/app.py lines 161-229)

The page computes `start_date = 'YYYY-MM-01'` and `end_date = start_date +
INTERVAL 1 MONTH`, then (stage 1) ranks articles by `SUM(pageviews)` over
`date >= start AND date < end`, keeping the top 10 (`ORDER BY
total_monthly_pageviews DESC LIMIT 10`), and (stage 2) fetches the daily
sums for exactly those articles over the same range. -/

/-- `f"'{selected_month}-01'"::DATE`: the first day of the selected month
`(y, m)`. -/
def month_start (y m : Nat) : Nat := daysFromCivil y m 1

/-- `start_date::DATE + INTERVAL 1 MONTH`: the first day of the following
month. -/
def next_month_start (y m : Nat) : Nat :=
  if m = 12 then daysFromCivil (y + 1) 1 1 else daysFromCivil y (m + 1) 1

/-- The date bound of both queries:
`date >= {start_date}::DATE AND date < {end_date}`. -/
def inMonthRange (y m d : Nat) : Bool :=
  decide (month_start y m ≤ d ∧ d < next_month_start y m)

/-- The monthly total of one article: the value computed by the
`MonthlyTotals` CTE for that article. -/
def monthlyTotal (y m : Nat) (rows : List Row) (a : String) : Nat :=
  sumViews ((rows.filter fun r => inMonthRange y m r.date).filter
    fun r => decide (r.article = a))

/-- Semantics of `top_articles_query` (src/app.py lines 173-190): group the
in-range rows by article, sum pageviews, order by total descending, keep
the first 10. -/
def top_articles_query (y m : Nat) (rows : List Row) : List (String × Nat) :=
  (List.insertionSort (fun a b : String × Nat => b.2 ≤ a.2)
    (groupSumBy Row.article
      (rows.filter fun r => inMonthRange y m r.date))).take 10

/-- Semantics of `daily_views_query` (src/app.py lines 217-229): restrict to
rows whose article is in the `IN` list and whose date is in the same range,
group by `(date, article)`, sum pageviews, order by date. -/
def daily_views_query (y m : Nat) (names : List String) (rows : List Row) :
    List ((Nat × String) × Nat) :=
  List.insertionSort (fun a b : (Nat × String) × Nat => a.1.1 ≤ b.1.1)
    (groupSumBy (fun r => (r.date, r.article))
      (rows.filter fun r =>
        decide (r.article ∈ names) && inMonthRange y m r.date))

/-- Helper: the output rows of stage 1 before `LIMIT`, as a sorted list. -/
def rankedArticles (y m : Nat) (rows : List Row) : List (String × Nat) :=
  List.insertionSort (fun a b : String × Nat => b.2 ≤ a.2)
    (groupSumBy Row.article (rows.filter fun r => inMonthRange y m r.date))

/-- Helper: membership in a `groupSumBy` output characterizes the key and
the aggregate. -/
theorem mem_groupSumBy {κ : Type} [DecidableEq κ] (key : Row → κ)
    (rows : List Row) (p : κ × Nat) (hp : p ∈ groupSumBy key rows) :
    p.2 = sumViews (rows.filter fun r => decide (key r = p.1)) ∧
    ∃ r ∈ rows, key r = p.1 := by
  obtain ⟨k, hk, hkp⟩ := List.mem_map.mp hp
  obtain ⟨r, hr, hrk⟩ := List.mem_map.mp (List.mem_dedup.mp hk)
  exact ⟨by rw [← hkp], r, hr, by rw [← hkp]; exact hrk⟩

/-- Helper: every key occurring in the rows occurs in the `groupSumBy`
output, paired with its aggregate. -/
theorem groupSumBy_complete {κ : Type} [DecidableEq κ] (key : Row → κ)
    (rows : List Row) (r : Row) (hr : r ∈ rows) :
    (key r, sumViews (rows.filter fun q => decide (key q = key r))) ∈
      groupSumBy key rows := by
  refine List.mem_map.mpr ⟨key r, ?_, rfl⟩
  exact List.mem_dedup.mpr (List.mem_map.mpr ⟨r, hr, rfl⟩)

/-- C2.  The two-stage request: stage 1 keeps at most N = 10 entries; every
entry pairs an article occurring in the month's date range with its summed
pageviews over that range; entries are ordered by total descending; any
in-range article left out of the top-10 has a total no larger than every
kept entry (the kept entries are the top of the ranking); and every output
row of the stage-2 daily-trend query is keyed by an article of the top-N
set and a date `d` with `month_start ≤ d` (inclusive) and
`d < next_month_start` (exclusive). -/
theorem top_n_two_stage (y m : Nat) (rows : List Row) :
    (top_articles_query y m rows).length ≤ 10 ∧
    (∀ p ∈ top_articles_query y m rows,
      p.2 = monthlyTotal y m rows p.1 ∧
      ∃ r ∈ rows, inMonthRange y m r.date = true ∧ r.article = p.1) ∧
    List.Pairwise (fun a b : String × Nat => b.2 ≤ a.2)
      (top_articles_query y m rows) ∧
    (∀ a : String,
      (∃ r ∈ rows, inMonthRange y m r.date = true ∧ r.article = a) →
      a ∉ (top_articles_query y m rows).map Prod.fst →
      ∀ p ∈ top_articles_query y m rows, monthlyTotal y m rows a ≤ p.2) ∧
    (∀ q ∈ daily_views_query y m
        ((top_articles_query y m rows).map Prod.fst) rows,
      q.1.2 ∈ (top_articles_query y m rows).map Prod.fst ∧
      month_start y m ≤ q.1.1 ∧ q.1.1 < next_month_start y m) := by
  haveI : IsTotal (String × Nat) (fun a b => b.2 ≤ a.2) :=
    ⟨fun a b => Nat.le_total b.2 a.2⟩
  haveI : IsTrans (String × Nat) (fun a b => b.2 ≤ a.2) :=
    ⟨fun _ _ _ hab hbc => le_trans hbc hab⟩
  have hsorted : List.Pairwise (fun a b : String × Nat => b.2 ≤ a.2)
      (rankedArticles y m rows) := List.sorted_insertionSort _ _
  have htop : top_articles_query y m rows = (rankedArticles y m rows).take 10 :=
    rfl
  refine ⟨?_, ?_, ?_, ?_, ?_⟩
  · rw [htop, List.length_take]
    omega
  · intro p hp
    have hp' : p ∈ groupSumBy Row.article
        (rows.filter fun r => inMonthRange y m r.date) := by
      have := List.take_subset 10 (rankedArticles y m rows) (htop ▸ hp)
      exact (List.perm_insertionSort _ _).mem_iff.mp this
    obtain ⟨hval, r, hr, hra⟩ := mem_groupSumBy _ _ _ hp'
    obtain ⟨hrow, hrange⟩ := List.mem_filter.mp hr
    exact ⟨hval, r, hrow, hrange, hra⟩
  · exact List.Pairwise.sublist (htop ▸ List.take_sublist 10 _) hsorted
  · intro a ⟨r, hr, hrange, hra⟩ hout p hptop
    have hrF : r ∈ rows.filter fun q => inMonthRange y m q.date :=
      List.mem_filter.mpr ⟨hr, hrange⟩
    have hmem : (a, monthlyTotal y m rows a) ∈ groupSumBy Row.article
        (rows.filter fun q => inMonthRange y m q.date) := by
      have := groupSumBy_complete Row.article
        (rows.filter fun q => inMonthRange y m q.date) r hrF
      rw [hra] at this
      exact this
    have hmemS : (a, monthlyTotal y m rows a) ∈ rankedArticles y m rows :=
      (List.perm_insertionSort _ _).mem_iff.mpr hmem
    have hsplit := List.take_append_drop 10 (rankedArticles y m rows)
    have hdrop : (a, monthlyTotal y m rows a) ∈
        (rankedArticles y m rows).drop 10 := by
      rcases List.mem_append.mp (hsplit ▸ hmemS) with htk | hdr
      · exact absurd (List.mem_map.mpr ⟨_, htop ▸ htk, rfl⟩) hout
      · exact hdr
    have hpair := (hsplit ▸ hsorted)
    have := (List.pairwise_append.mp hpair).2.2 p (htop ▸ hptop)
      (a, monthlyTotal y m rows a) hdrop
    exact this
  · intro q hq
    have hq' : q ∈ groupSumBy (fun r => (r.date, r.article))
        (rows.filter fun r =>
          decide (r.article ∈ (top_articles_query y m rows).map Prod.fst) &&
            inMonthRange y m r.date) :=
      (List.perm_insertionSort _ _).mem_iff.mp hq
    obtain ⟨_, r, hr, hrq⟩ := mem_groupSumBy _ _ _ hq'
    obtain ⟨hrow, hcond⟩ := List.mem_filter.mp hr
    rw [Bool.and_eq_true] at hcond
    obtain ⟨hin, hrange⟩ := hcond
    have hdate : q.1.1 = r.date := by rw [← hrq]
    have hart : q.1.2 = r.article := by rw [← hrq]
    have hrange' := of_decide_eq_true hrange
    refine ⟨?_, ?_, ?_⟩
    · rw [hart]; exact of_decide_eq_true hin
    · rw [hdate]; exact hrange'.1
    · rw [hdate]; exact hrange'.2

/-- Rows used by the C2 witness: eleven articles in May 2023 (day 19478 is
2023-05-01), with pairwise distinct monthly totals in descending order, so
article `"k"` (total 10) is the one excluded from the top 10. -/
def wrows : List Row :=
  [⟨19478, "a", 110⟩, ⟨19479, "b", 100⟩, ⟨19480, "c", 90⟩, ⟨19481, "d", 80⟩,
   ⟨19482, "e", 70⟩, ⟨19483, "f", 60⟩, ⟨19484, "g", 50⟩, ⟨19485, "h", 40⟩,
   ⟨19486, "i", 30⟩, ⟨19487, "j", 20⟩, ⟨19488, "k", 10⟩]

/-- Witness for C2 at the concrete table `wrows` and month 2023-05. -/
theorem top_n_two_stage_witness :
    (top_articles_query 2023 5 wrows).length ≤ 10 ∧
    ((("a", 110) : String × Nat).2 = monthlyTotal 2023 5 wrows "a") ∧
    monthlyTotal 2023 5 wrows "k" ≤ (("a", 110) : String × Nat).2 ∧
    ((((19478, "a"), 110) : (Nat × String) × Nat).1.2 ∈
        (top_articles_query 2023 5 wrows).map Prod.fst ∧
      month_start 2023 5 ≤ (((19478, "a"), 110) : (Nat × String) × Nat).1.1 ∧
      (((19478, "a"), 110) : (Nat × String) × Nat).1.1 <
        next_month_start 2023 5) := by
  have th := top_n_two_stage 2023 5 wrows
  refine ⟨th.1, (th.2.1 ("a", 110) (by decide)).1, ?_, ?_⟩
  · exact th.2.2.2.1 "k" (by decide) (by decide) ("a", 110) (by decide)
  · exact th.2.2.2.2 ((19478, "a"), 110) (by decide)

/-! ## C10: the available-months list (src/app.py lines 131-158)

`get_available_months` runs `SELECT DISTINCT STRFTIME(DATE_TRUNC('month',
date), '%Y-%m') AS month_key FROM data_table ORDER BY month_key DESC` and
the selectbox defaults to `index=0`, i.e. the first entry.  We embed the
`YYYY-MM` formatting (4-digit zero-padded year, 2-digit zero-padded month)
and DuckDB's default binary (code-point) collation for `ORDER BY` on text. -/

/-- The ASCII digit character of `n` (for `n ≤ 9`). -/
def digitChar (n : Nat) : Char := Char.ofNat (48 + n)

/-- 4-digit zero-padded decimal rendering (`%Y` for years up to 9999). -/
def pad4 (n : Nat) : List Char :=
  [digitChar (n / 1000 % 10), digitChar (n / 100 % 10),
   digitChar (n / 10 % 10), digitChar (n % 10)]

/-- 2-digit zero-padded decimal rendering (`%m`). -/
def pad2 (n : Nat) : List Char := [digitChar (n / 10 % 10), digitChar (n % 10)]

/-- The `YYYY-MM` key of the year/month pair (the hyphen is code point 45). -/
def ymKey (y m : Nat) : List Char := pad4 y ++ Char.ofNat 45 :: pad2 m

/-- `STRFTIME(DATE_TRUNC('month', date), '%Y-%m')` of a day index. -/
def month_key (d : Nat) : List Char :=
  ymKey (civilFromDays d).1 (civilFromDays d).2.1

/-- Code-point-wise lexicographic strict comparison of character lists —
DuckDB's default collation for `ORDER BY` on VARCHAR. -/
def lexLt : List Char → List Char → Bool
  | [], [] => false
  | [], _ :: _ => true
  | _ :: _, [] => false
  | a :: as, b :: bs =>
    if a.toNat < b.toNat then true
    else if b.toNat < a.toNat then false
    else lexLt as bs

/-- Relational semantics of the month-list query: the distinct month keys,
ordered by key descending (`a` before `b` iff `a` is not below `b`). -/
def available_months_rows (rows : List Row) : List (List Char) :=
  List.insertionSort (fun a b : List Char => lexLt a b = false)
    ((rows.map fun r => month_key r.date).dedup)

theorem char_eq_of_toNat_eq {a b : Char} (h : a.toNat = b.toNat) : a = b :=
  Char.eq_of_val_eq (UInt32.ext h)

theorem lexLt_irrefl : ∀ l : List Char, lexLt l l = false
  | [] => rfl
  | c :: cs => by simp [lexLt, lexLt_irrefl cs]

theorem lexLt_trichotomy :
    ∀ a b : List Char, lexLt a b = true ∨ lexLt b a = true ∨ a = b
  | [], [] => Or.inr (Or.inr rfl)
  | [], _ :: _ => Or.inl rfl
  | _ :: _, [] => Or.inr (Or.inl rfl)
  | a :: as, b :: bs => by
    by_cases h1 : a.toNat < b.toNat
    · exact Or.inl (by simp [lexLt, h1])
    · by_cases h2 : b.toNat < a.toNat
      · exact Or.inr (Or.inl (by simp [lexLt, h2]))
      · have hab : a = b := char_eq_of_toNat_eq (by omega)
        rcases lexLt_trichotomy as bs with h | h | h
        · exact Or.inl (by simp [lexLt, h1, h2, h])
        · exact Or.inr (Or.inl (by simp [lexLt, h1, h2, h]))
        · exact Or.inr (Or.inr (by rw [hab, h]))

theorem lexLt_trans :
    ∀ a b c : List Char,
      lexLt a b = true → lexLt b c = true → lexLt a c = true
  | [], [], _, h1, _ => by simp [lexLt] at h1
  | [], _ :: _, [], _, h2 => by simp [lexLt] at h2
  | [], _ :: _, _ :: _, _, _ => rfl
  | _ :: _, [], _, h1, _ => by simp [lexLt] at h1
  | _ :: _, _ :: _, [], _, h2 => by simp [lexLt] at h2
  | a :: as, b :: bs, c :: cs, h1, h2 => by
    have fact1 : a.toNat < b.toNat ∨
        (a.toNat = b.toNat ∧ lexLt as bs = true) := by
      by_cases hab : a.toNat < b.toNat
      · exact Or.inl hab
      · by_cases hba : b.toNat < a.toNat
        · simp [lexLt, hab, hba] at h1
        · exact Or.inr ⟨by omega, by simpa [lexLt, hab, hba] using h1⟩
    have fact2 : b.toNat < c.toNat ∨
        (b.toNat = c.toNat ∧ lexLt bs cs = true) := by
      by_cases hbc : b.toNat < c.toNat
      · exact Or.inl hbc
      · by_cases hcb : c.toNat < b.toNat
        · simp [lexLt, hbc, hcb] at h2
        · exact Or.inr ⟨by omega, by simpa [lexLt, hbc, hcb] using h2⟩
    rcases fact1 with hab | ⟨hab, htail1⟩ <;>
      rcases fact2 with hbc | ⟨hbc, htail2⟩
    · simp [lexLt, show a.toNat < c.toNat by omega]
    · simp [lexLt, show a.toNat < c.toNat by omega]
    · simp [lexLt, show a.toNat < c.toNat by omega]
    · have hac : a.toNat = c.toNat := by omega
      simp [lexLt, show ¬a.toNat < c.toNat by omega,
        show ¬c.toNat < a.toNat by omega]
      exact lexLt_trans as bs cs htail1 htail2

theorem lexLt_asymm {a b : List Char} (h : lexLt a b = true) :
    lexLt b a = false := by
  by_contra hne
  have hba : lexLt b a = true := by
    cases hx : lexLt b a
    · exact absurd hx hne
    · rfl
  have := lexLt_trans a b a h hba
  rw [lexLt_irrefl] at this
  exact Bool.false_ne_true this

/-- Code point of `Char.ofNat n` for codes below the surrogate range. -/
theorem toNat_ofNat_lt (n : Nat) (h : n < 55296) : (Char.ofNat n).toNat = n := by
  have hv : n < 55296 ∨ 57343 < n ∧ n < 1114112 := Or.inl h
  simp only [Char.ofNat, hv, dif_pos, Char.toNat, Char.ofNatAux]
  simp only [UInt32.toNat]
  simp [BitVec.toNat_ofNat]

theorem digitChar_mod_toNat (k : Nat) :
    (digitChar (k % 10)).toNat = 48 + k % 10 :=
  toNat_ofNat_lt _ (by omega)

theorem hyphen_toNat : (Char.ofNat 45).toNat = 45 := rfl

theorem digitChar_mod_inj (j k : Nat) :
    digitChar (j % 10) = digitChar (k % 10) ↔ j % 10 = k % 10 := by
  constructor
  · intro h
    have := congrArg Char.toNat h
    rw [digitChar_mod_toNat, digitChar_mod_toNat] at this
    omega
  · intro h
    rw [h]

/-- Lexicographic comparison of two `YYYY-MM` keys is exactly chronological
comparison of the year/month pairs (for 4-digit years and 2-digit months). -/
theorem lexLt_nil : lexLt [] [] = false := rfl

/-- One comparison step on a digit position. -/
theorem digit_level (j k : Nat) (as bs : List Char) :
    lexLt (digitChar (j % 10) :: as) (digitChar (k % 10) :: bs) =
      if j % 10 < k % 10 then true
      else if k % 10 < j % 10 then false
      else lexLt as bs := by
  have ha := digitChar_mod_toNat j
  have hb := digitChar_mod_toNat k
  show (if (digitChar (j % 10)).toNat < (digitChar (k % 10)).toNat then true
    else if (digitChar (k % 10)).toNat < (digitChar (j % 10)).toNat then false
    else lexLt as bs) = _
  by_cases h1 : j % 10 < k % 10
  · rw [if_pos (by omega :
      (digitChar (j % 10)).toNat < (digitChar (k % 10)).toNat), if_pos h1]
  · by_cases h2 : k % 10 < j % 10
    · rw [if_neg (by omega : ¬(digitChar (j % 10)).toNat <
          (digitChar (k % 10)).toNat),
        if_pos (by omega :
          (digitChar (k % 10)).toNat < (digitChar (j % 10)).toNat),
        if_neg h1, if_pos h2]
    · rw [if_neg (by omega : ¬(digitChar (j % 10)).toNat <
          (digitChar (k % 10)).toNat),
        if_neg (by omega : ¬(digitChar (k % 10)).toNat <
          (digitChar (j % 10)).toNat),
        if_neg h1, if_neg h2]

/-- One comparison step on the hyphen position. -/
theorem hyphen_level (as bs : List Char) :
    lexLt (Char.ofNat 45 :: as) (Char.ofNat 45 :: bs) = lexLt as bs := by
  show (if (Char.ofNat 45).toNat < (Char.ofNat 45).toNat then true
    else if (Char.ofNat 45).toNat < (Char.ofNat 45).toNat then false
    else lexLt as bs) = _
  rw [if_neg (lt_irrefl _), if_neg (lt_irrefl _)]

/-- A two-sided comparison step, as a proposition. -/
theorem ite_chain (x y : Nat) (t : Bool) :
    ((if x < y then true else if y < x then false else t) = true) ↔
      (x < y ∨ (x = y ∧ t = true)) := by
  rcases Nat.lt_trichotomy x y with h | h | h
  · rw [if_pos h]
    simp [h]
  · subst h
    rw [if_neg (lt_irrefl _), if_neg (lt_irrefl _)]
    simp
  · rw [if_neg (by omega : ¬x < y), if_pos h]
    simp only [Bool.false_eq_true, false_iff]
    rintro (h' | ⟨h', _⟩) <;> omega

set_option maxHeartbeats 1000000 in
/-- Lexicographic comparison of two `YYYY-MM` keys is exactly chronological
comparison of the year/month pairs (for 4-digit years and 2-digit months). -/
theorem lexLt_ymKey (y m y' m' : Nat) (hy : y ≤ 9999) (hy' : y' ≤ 9999)
    (hm : m ≤ 99) (hm' : m' ≤ 99) :
    (lexLt (ymKey y m) (ymKey y' m') = true) ↔
      y * 100 + m < y' * 100 + m' := by
  simp only [ymKey, pad4, pad2, List.cons_append, List.nil_append,
    digit_level, hyphen_level, lexLt_nil]
  simp only [ite_chain, Bool.false_eq_true, and_false, or_false]
  constructor
  · intro h
    rcases h with h | ⟨e1, h⟩
    · omega
    rcases h with h | ⟨e2, h⟩
    · omega
    rcases h with h | ⟨e3, h⟩
    · omega
    rcases h with h | ⟨e4, h⟩
    · omega
    rcases h with h | ⟨e5, h⟩
    · omega
    · omega
  · intro h
    rcases Nat.lt_trichotomy (y / 1000 % 10) (y' / 1000 % 10) with h1 | h1 | h1
    · exact Or.inl h1
    · refine Or.inr ⟨h1, ?_⟩
      rcases Nat.lt_trichotomy (y / 100 % 10) (y' / 100 % 10) with h2 | h2 | h2
      · exact Or.inl h2
      · refine Or.inr ⟨h2, ?_⟩
        rcases Nat.lt_trichotomy (y / 10 % 10) (y' / 10 % 10) with h3 | h3 | h3
        · exact Or.inl h3
        · refine Or.inr ⟨h3, ?_⟩
          rcases Nat.lt_trichotomy (y % 10) (y' % 10) with h4 | h4 | h4
          · exact Or.inl h4
          · refine Or.inr ⟨h4, ?_⟩
            rcases Nat.lt_trichotomy (m / 10 % 10) (m' / 10 % 10) with
              h5 | h5 | h5
            · exact Or.inl h5
            · refine Or.inr ⟨h5, ?_⟩
              omega
            · exfalso
              omega
          · exfalso
            omega
        · exfalso
          omega
      · exfalso
        omega
    · exfalso
      omega

/-- Equal `YYYY-MM` keys come from the same year/month pair (for 4-digit
years and 2-digit months). -/
theorem ymKey_inj (y m y' m' : Nat) (hy : y ≤ 9999) (hy' : y' ≤ 9999)
    (hm : m ≤ 99) (hm' : m' ≤ 99) :
    ymKey y m = ymKey y' m' ↔ (y = y' ∧ m = m') := by
  simp only [ymKey, pad4, pad2, List.cons_append, List.nil_append,
    List.cons.injEq, and_true, true_and, digitChar_mod_inj]
  constructor
  · intro h
    omega
  · intro h
    omega

/-- C10.  The available-months list holds exactly the distinct `YYYY-MM`
keys of the data's dates; it is strictly descending in the collation used
by `ORDER BY ... DESC`; and (for dates whose civil year has at most four
digits) the entry at index 0 — the selectbox default — is the key of a
chronologically most recent month of the data. -/
theorem available_months_spec (rows : List Row) (k : List Char) :
    (k ∈ available_months_rows rows ↔
      ∃ r ∈ rows, month_key r.date = k) ∧
    List.Pairwise (fun a b => lexLt b a = true) (available_months_rows rows) ∧
    ((∀ r ∈ rows, (civilFromDays r.date).1 ≤ 9999 ∧
        (civilFromDays r.date).2.1 ≤ 99) →
      rows ≠ [] →
      ∃ r0 ∈ rows,
        (available_months_rows rows).head? = some (month_key r0.date) ∧
        ∀ r ∈ rows,
          (civilFromDays r.date).1 * 100 + (civilFromDays r.date).2.1 ≤
            (civilFromDays r0.date).1 * 100 + (civilFromDays r0.date).2.1) := by
  haveI : IsTotal (List Char) (fun a b => lexLt a b = false) := by
    constructor
    intro a b
    rcases lexLt_trichotomy a b with h | h | h
    · exact Or.inr (lexLt_asymm h)
    · exact Or.inl (lexLt_asymm h)
    · subst h
      exact Or.inl (lexLt_irrefl a)
  haveI : IsTrans (List Char) (fun a b => lexLt a b = false) := by
    constructor
    intro a b c hab hbc
    cases hac : lexLt a c with
    | false => rfl
    | true =>
      exfalso
      rcases lexLt_trichotomy a b with h | h | h
      · rw [h] at hab
        exact absurd hab (by simp)
      · have hbc' : lexLt b c = true := lexLt_trans b a c h hac
        rw [hbc'] at hbc
        exact absurd hbc (by simp)
      · subst h
        rw [hac] at hbc
        exact absurd hbc (by simp)
  have hmem : ∀ x, x ∈ available_months_rows rows ↔
      ∃ r ∈ rows, month_key r.date = x := by
    intro x
    rw [available_months_rows, (List.perm_insertionSort _ _).mem_iff,
      List.mem_dedup, List.mem_map]
  have hsorted : List.Pairwise (fun a b => lexLt a b = false)
      (available_months_rows rows) := List.sorted_insertionSort _ _
  have hnodup : (available_months_rows rows).Nodup :=
    (List.perm_insertionSort _ _).nodup_iff.mpr (List.nodup_dedup _)
  have hstrict : List.Pairwise (fun a b => lexLt b a = true)
      (available_months_rows rows) := by
    refine (hsorted.and hnodup).imp ?_
    rintro a b ⟨hge, hne⟩
    rcases lexLt_trichotomy a b with h | h | h
    · rw [h] at hge
      exact absurd hge (by simp)
    · exact h
    · exact absurd h hne
  refine ⟨hmem k, hstrict, ?_⟩
  intro hbound hne
  cases hres : available_months_rows rows with
  | nil =>
    exfalso
    have : (rows.map fun r => month_key r.date).dedup = [] := by
      have hlen := (List.perm_insertionSort
        (fun a b : List Char => lexLt a b = false)
        ((rows.map fun r => month_key r.date).dedup)).length_eq
      rw [show List.insertionSort (fun a b : List Char => lexLt a b = false)
          ((rows.map fun r => month_key r.date).dedup) =
          available_months_rows rows from rfl, hres] at hlen
      exact List.length_eq_zero.mp hlen.symm
    rw [List.dedup_eq_nil, List.map_eq_nil_iff] at this
    exact hne this
  | cons h0 rest =>
    have hh0 : h0 ∈ available_months_rows rows := by
      rw [hres]
      exact List.mem_cons_self _ _
    obtain ⟨r0, hr0, hk0⟩ := (hmem h0).mp hh0
    refine ⟨r0, hr0, by simp [hres, hk0], ?_⟩
    intro r hr
    have hkr : month_key r.date ∈ available_months_rows rows :=
      (hmem _).mpr ⟨r, hr, rfl⟩
    obtain ⟨hyr, hmr⟩ := hbound r hr
    obtain ⟨hyr0, hmr0⟩ := hbound r0 hr0
    rw [hres, List.mem_cons] at hkr
    rcases hkr with heq | hmem_rest
    · have heq' : ymKey (civilFromDays r.date).1 (civilFromDays r.date).2.1 =
          ymKey (civilFromDays r0.date).1 (civilFromDays r0.date).2.1 :=
        heq.trans hk0.symm
      have := (ymKey_inj _ _ _ _ hyr hyr0 hmr hmr0).mp heq'
      omega
    · have hlt : lexLt (month_key r.date) h0 = true := by
        rw [hres] at hstrict
        exact (List.pairwise_cons.mp hstrict).1 _ hmem_rest
      rw [← hk0] at hlt
      have hlt' : lexLt
          (ymKey (civilFromDays r.date).1 (civilFromDays r.date).2.1)
          (ymKey (civilFromDays r0.date).1 (civilFromDays r0.date).2.1) =
          true := hlt
      have := (lexLt_ymKey _ _ _ _ hyr hyr0 hmr hmr0).mp hlt'
      omega

/-- Rows used by the C10 witness: one date in 2023-05, one in 1970-01. -/
def mrows : List Row := [⟨19478, "a", 1⟩, ⟨0, "b", 2⟩]

/-- Witness for C10 at the concrete table `mrows`. -/
theorem available_months_spec_witness :
    ∃ r0 ∈ mrows,
      (available_months_rows mrows).head? = some (month_key r0.date) ∧
      ∀ r ∈ mrows,
        (civilFromDays r.date).1 * 100 + (civilFromDays r.date).2.1 ≤
          (civilFromDays r0.date).1 * 100 + (civilFromDays r0.date).2.1 :=
  (available_months_spec mrows []).2.2 (by decide) (by decide)

/-! ## C8: read-only attachment and read-only statements

The source attaches the remote database with `ATTACH '{DATABASE_URL}' AS
remote_db (READ_ONLY)` (src/app.py line 30) and then only ever runs the four
`SELECT`/`WITH` query families against `remote_db` (the `INSTALL`, `LOAD`
and `USE` statements act on the local in-memory connection, not the remote
source).  Here the generated query *texts* are embedded verbatim, and we
check that the attach command carries the `(READ_ONLY)` option and that
every generated statement's leading keyword is `SELECT` or `WITH` — never a
write statement — for all parameter values. -/

def DATABASE_URL : String :=
  "https://cs.wellesley.edu/~eni/duckdb/2023_wiki_views.duckdb"

/-- The single-quote character as a one-character string (written by code
point to keep the embedded SQL quoting explicit). -/
def sqS : String := String.singleton sq

/-- `f"ATTACH '{DATABASE_URL}' AS remote_db (READ_ONLY)"` (line 30). -/
def attach_command : String :=
  "ATTACH " ++ sqS ++ DATABASE_URL ++ sqS ++ " AS remote_db (READ_ONLY)"

/-- The `date_format_map` of the time-series page (lines 82-86). -/
def date_format_map (g : Granularity) : String :=
  match g with
  | Granularity.day => "DATE_TRUNC(" ++ sqS ++ "day" ++ sqS ++ ", date)"
  | Granularity.week => "DATE_TRUNC(" ++ sqS ++ "week" ++ sqS ++ ", date)"
  | Granularity.month => "DATE_TRUNC(" ++ sqS ++ "month" ++ sqS ++ ", date)"

/-- The time-series query text (lines 91-98). -/
def timeseries_sql (g : Granularity) : String :=
  "\n        SELECT\n            " ++ date_format_map g ++
  " AS period,\n            SUM(pageviews) AS total_pageviews\n        FROM data_table\n        GROUP BY 1\n        ORDER BY 1;\n        "

/-- The month-list query text (lines 135-140). -/
def months_sql : String :=
  "\n                SELECT DISTINCT\n                    STRFTIME(DATE_TRUNC(" ++
  sqS ++ "month" ++ sqS ++ ", date), " ++ sqS ++ "%Y-%m" ++ sqS ++
  ") AS month_key\n                FROM data_table\n                ORDER BY month_key DESC;\n            "

/-- `f"'{selected_month}-01'"` (line 163). -/
def start_date (selected_month : String) : String :=
  sqS ++ selected_month ++ "-01" ++ sqS

/-- `f"{start_date}::DATE + INTERVAL 1 MONTH"` (line 168). -/
def end_date (selected_month : String) : String :=
  start_date selected_month ++ "::DATE + INTERVAL 1 MONTH"

/-- The top-articles query text (lines 173-189). -/
def top_articles_sql (selected_month : String) : String :=
  "\n                WITH MonthlyTotals AS (\n                    SELECT\n                        article,\n                        SUM(pageviews) AS total_monthly_pageviews\n                    FROM data_table\n                    -- FIX: Explicitly cast start_date string to DATE for comparison\n                    WHERE date >= " ++
  start_date selected_month ++ "::DATE AND date < " ++
  end_date selected_month ++
  "\n                    GROUP BY 1\n                )\n                SELECT\n                    article,\n                    total_monthly_pageviews\n                FROM MonthlyTotals\n                ORDER BY total_monthly_pageviews DESC\n                LIMIT 10;\n                "

/-- The daily-views query text (lines 217-228). -/
def daily_views_sql (selected_month articles_list : String) : String :=
  "\n                SELECT\n                    date,\n                    article,\n                    SUM(pageviews) AS daily_pageviews\n                FROM data_table\n                WHERE article IN (" ++
  articles_list ++
  ")\n                  -- FIX: Explicitly cast start_date string to DATE for comparison\n                  AND date >= " ++
  start_date selected_month ++ "::DATE AND date < " ++
  end_date selected_month ++
  "\n                GROUP BY 1, 2\n                ORDER BY date;\n                "

/-- SQL whitespace (space, tab, line feed, carriage return), by code point. -/
def isWsC (c : Char) : Bool :=
  decide (c.toNat = 32 ∨ c.toNat = 9 ∨ c.toNat = 10 ∨ c.toNat = 13)

def dropWsC : List Char → List Char
  | [] => []
  | c :: cs => if isWsC c then dropWsC cs else c :: cs

def takeWordC : List Char → List Char
  | [] => []
  | c :: cs => if isWsC c then [] else c :: takeWordC cs

/-- The leading keyword of a SQL statement text. -/
def firstWord (s : String) : List Char := takeWordC (dropWsC s.data)

/-- A statement is read-only when its leading keyword is `SELECT` or
`WITH` (as opposed to `INSERT`, `UPDATE`, `DELETE`, `CREATE`, `DROP`,
`ALTER`, `COPY`, ...). -/
def isReadOnlyStatement (s : String) : Bool :=
  decide (firstWord s = [ 'S', 'E', 'L', 'E', 'C', 'T' ]) ||
  decide (firstWord s = [ 'W', 'I', 'T', 'H' ])

/-- The attach command ends with the `(READ_ONLY)` attach option. -/
def endsWithReadOnly (s : String) : Bool :=
  List.isSuffixOf ("(READ_ONLY)".data) s.data

/-- C8.  The remote source is attached with the `(READ_ONLY)` option, and
every statement the engine runs against the attached source — the
time-series aggregation for each granularity, the month-list query, and the
two article queries for every selected month and article list — is a
`SELECT`/`WITH` statement: no generated statement is a write or mutation. -/
theorem read_only_engine :
    endsWithReadOnly attach_command = true ∧
    (∀ g, isReadOnlyStatement (timeseries_sql g) = true) ∧
    isReadOnlyStatement months_sql = true ∧
    (∀ month : String, isReadOnlyStatement (top_articles_sql month) = true) ∧
    (∀ month articles : String,
      isReadOnlyStatement (daily_views_sql month articles) = true) := by
  refine ⟨rfl, ?_, rfl, ?_, ?_⟩
  · intro g
    cases g <;> rfl
  · intro month
    rfl
  · intro month articles
    rfl

/-! ## C9: text normalization before distinct counting

The spec's `StatisticsEngine` and its `NormalizationRule` have no
counterpart in src/app.py (the app has no column-statistics page), so the
normalization transform is modelled from the spec's words and the claim is
settled against that model. -/

/-- Printable ASCII, by code point (32 to 126 inclusive). -/
def isPrintable (c : Char) : Bool := decide (32 ≤ c.toNat ∧ c.toNat ≤ 126)

/-- ASCII lower-casing of one character. -/
def lowerChar (c : Char) : Char :=
  if 65 ≤ c.toNat ∧ c.toNat ≤ 90 then Char.ofNat (c.toNat + 32) else c

/-- Trim trailing whitespace. -/
def trimRightC (l : List Char) : List Char := (dropWsC l.reverse).reverse

/-- Trim leading and trailing whitespace. -/
def trimC (l : List Char) : List Char := trimRightC (dropWsC l)

/-- Modelled from the spec: the `NormalizationRule` of the StatisticsEngine
(absent from src/app.py) — "strip all characters outside the printable
ASCII range, trim leading/trailing whitespace, lower-case the result",
applied to a text value held as a character list. -/
def normalizeL (l : List Char) : List Char :=
  (trimC (l.filter isPrintable)).map lowerChar

/-- Modelled from the spec: the unique-value count of a textual column —
the number of distinct *normalized* values. -/
def uniqueCountL (vals : List (List Char)) : Nat :=
  ((vals.map normalizeL).dedup).length

/-- Modelled from the spec: one elementary difference between two raw text
values that "differ only in case, leading/trailing whitespace, or
non-printable characters" — adding surrounding whitespace, inserting a
non-printable character, or changing the case of one character. -/
inductive VariantStep : List Char → List Char → Prop
  | pad (pre suf s : List Char) (hpre : ∀ c ∈ pre, isWsC c = true)
      (hsuf : ∀ c ∈ suf, isWsC c = true) : VariantStep s (pre ++ s ++ suf)
  | insertNP (a b : List Char) (c : Char) (h : isPrintable c = false) :
      VariantStep (a ++ b) (a ++ c :: b)
  | recase (a b : List Char) (c c' : Char) (h : lowerChar c = lowerChar c') :
      VariantStep (a ++ c :: b) (a ++ c' :: b)

theorem dropWsC_ws_append (w x : List Char) (hw : ∀ c ∈ w, isWsC c = true) :
    dropWsC (w ++ x) = dropWsC x := by
  induction w with
  | nil => rfl
  | cons c cs ih =>
    have hc : isWsC c = true := hw c (List.mem_cons_self _ _)
    simp only [List.cons_append, dropWsC, hc, if_pos]
    exact ih fun d hd => hw d (List.mem_cons_of_mem _ hd)

theorem trimRightC_append_ws (x w : List Char)
    (hw : ∀ c ∈ w, isWsC c = true) :
    trimRightC (x ++ w) = trimRightC x := by
  unfold trimRightC
  rw [List.reverse_append, dropWsC_ws_append _ _ (by
    intro c hc
    exact hw c (List.mem_reverse.mp hc))]

theorem trimRightC_dropWsC_append_ws (x w : List Char)
    (hw : ∀ c ∈ w, isWsC c = true) :
    trimRightC (dropWsC (x ++ w)) = trimRightC (dropWsC x) := by
  induction x with
  | nil =>
    have h1 : dropWsC w = ([] : List Char) := by
      have h2 := dropWsC_ws_append w [] hw
      simpa using h2
    simp [dropWsC, h1]
  | cons c cs ih =>
    by_cases hc : isWsC c = true
    · simp only [List.cons_append, dropWsC, hc, if_true]
      exact ih
    · simp only [List.cons_append, dropWsC, hc, Bool.false_eq_true, if_false]
      show trimRightC ((c :: cs) ++ w) = trimRightC (c :: cs)
      exact trimRightC_append_ws _ _ hw

/-- Padding with whitespace on either side does not change the normalized
value. -/
theorem normalizeL_pad (pre suf s : List Char)
    (hpre : ∀ c ∈ pre, isWsC c = true) (hsuf : ∀ c ∈ suf, isWsC c = true) :
    normalizeL (pre ++ s ++ suf) = normalizeL s := by
  unfold normalizeL trimC
  refine congrArg (List.map lowerChar) ?_
  have hfpre : ∀ c ∈ pre.filter isPrintable, isWsC c = true := by
    intro c hc
    exact hpre c (List.mem_of_mem_filter hc)
  have hfsuf : ∀ c ∈ suf.filter isPrintable, isWsC c = true := by
    intro c hc
    exact hsuf c (List.mem_of_mem_filter hc)
  rw [List.filter_append, List.filter_append,
    trimRightC_dropWsC_append_ws _ _ hfsuf, dropWsC_ws_append _ _ hfpre]

theorem isWsC_lowerChar (c : Char) : isWsC (lowerChar c) = isWsC c := by
  unfold lowerChar
  split_ifs with h
  · have ht : (Char.ofNat (c.toNat + 32)).toNat = c.toNat + 32 :=
      toNat_ofNat_lt _ (by omega)
    simp only [isWsC, ht, decide_eq_decide]
    omega
  · rfl

theorem isPrintable_lowerChar (c : Char) :
    isPrintable (lowerChar c) = isPrintable c := by
  unfold lowerChar
  split_ifs with h
  · have ht : (Char.ofNat (c.toNat + 32)).toNat = c.toNat + 32 :=
      toNat_ofNat_lt _ (by omega)
    simp only [isPrintable, ht, decide_eq_decide]
    omega
  · rfl

theorem dropWsC_map_lower (l : List Char) :
    dropWsC (l.map lowerChar) = (dropWsC l).map lowerChar := by
  induction l with
  | nil => rfl
  | cons c cs ih =>
    by_cases hc : isWsC c = true
    · simp [dropWsC, hc, isWsC_lowerChar, ih]
    · simp [dropWsC, hc, isWsC_lowerChar]

theorem trimRightC_map_lower (l : List Char) :
    trimRightC (l.map lowerChar) = (trimRightC l).map lowerChar := by
  unfold trimRightC
  rw [← List.map_reverse, dropWsC_map_lower, ← List.map_reverse]

theorem filter_map_lower (l : List Char) :
    (l.map lowerChar).filter isPrintable =
      (l.filter isPrintable).map lowerChar := by
  rw [List.filter_map]
  have hfun : isPrintable ∘ lowerChar = isPrintable := by
    funext c
    exact isPrintable_lowerChar c
  rw [hfun]

/-- The normalization can equivalently lower-case first: stripping and
trimming commute with per-character lower-casing. -/
theorem normalizeL_eq_commuted (l : List Char) :
    normalizeL l = trimC ((l.map lowerChar).filter isPrintable) := by
  rw [filter_map_lower]
  unfold normalizeL trimC
  rw [dropWsC_map_lower, trimRightC_map_lower]

/-- Each elementary difference leaves the normalized value unchanged. -/
theorem variantStep_normalize {u v : List Char} (h : VariantStep u v) :
    normalizeL u = normalizeL v := by
  cases h with
  | pad pre suf s hpre hsuf => exact (normalizeL_pad _ _ _ hpre hsuf).symm
  | insertNP a b c hc =>
    simp [normalizeL, List.filter_append, List.filter_cons, hc]
  | recase a b c c' hcc =>
    rw [normalizeL_eq_commuted, normalizeL_eq_commuted]
    simp only [List.map_append, List.map_cons, hcc]

/-- C9.  Modelled from the spec: any two raw text values that differ only
by case, surrounding whitespace, or non-printable characters — i.e. related
by the equivalence generated by the elementary differences — have the same
normalized key, and together contribute exactly one value to the
unique-value count. -/
theorem normalization_collapses_variants (u v : List Char)
    (h : Relation.EqvGen VariantStep u v) :
    normalizeL u = normalizeL v ∧ uniqueCountL [u, v] = 1 := by
  have heq : normalizeL u = normalizeL v := by
    induction h with
    | rel x y hxy => exact variantStep_normalize hxy
    | refl x => rfl
    | symm x y hxy ih => exact ih.symm
    | trans x y z hxy hyz ih1 ih2 => exact ih1.trans ih2
  refine ⟨heq, ?_⟩
  simp [uniqueCountL, heq, List.dedup_cons_of_mem]

/-- Witness for C9: `" A"` (padded, upper-case) and `"a"` normalize to the
same key and count once. -/
theorem normalization_collapses_variants_witness :
    normalizeL [ ' ', 'A' ] = normalizeL [ 'a' ] ∧
    uniqueCountL [ [ ' ', 'A' ], [ 'a' ] ] = 1 :=
  normalization_collapses_variants [ ' ', 'A' ] [ 'a' ]
    (Relation.EqvGen.trans _ _ _
      (Relation.EqvGen.symm _ _ (Relation.EqvGen.rel _ _
        (VariantStep.pad [ ' ' ] [] [ 'A' ] (by decide) (by decide))))
      (Relation.EqvGen.rel _ _
        (VariantStep.recase [] [] 'A' 'a' (by decide))))

end DuckApp
